import Mathlib

/-
Verification of the pike HTTP cache core against its specification.

The embedding covers:
- the request status values and the per-fingerprint registry (single-flight
  coalescing) used by the server handler;
- the server request handler of server/server.go, instrumented so that the
  upstream fetches, registry publications and response-store saves it performs
  are visible in the result;
- the Server-Timing header construction of server/server.go;
- the cache-fetcher middleware of middleware/cache_fetcher.go;
- the LRU cache of the repository (groupcache-derived lru.go).
-/

namespace Pike

/-- Request status values (vars.Pass / vars.Fetching / vars.HitForPass /
vars.Cacheable in the source). -/
inductive RequestStatus where
  | pass
  | fetching
  | hitForPass
  | cacheable
deriving DecidableEq, Repr

/-- Compression flag of a cached response (vars.RawData / vars.GzipData). -/
inductive CompressType where
  | raw
  | gzip
deriving DecidableEq, Repr

/-- Registry entry for one fingerprint: its status and the queue of waiter
slots (identified by numbers) of coalesced followers. -/
structure RegEntry where
  status : RequestStatus
  waiters : List Nat
deriving DecidableEq, Repr

/-- Modelled from the spec: cache.GetRequestStatus of the cache package, which
is not under src/. Per section 4.2 of the spec: no entry creates a Fetching
entry and elects the caller as fetcher (no waiter handle); an existing
Fetching entry appends a fresh waiter slot and returns it; HitForPass and
Cacheable entries are returned unchanged with no waiter handle. The state for
a single fingerprint is `Option RegEntry`; `wid` is the fresh waiter id. -/
def getRequestStatus : Option RegEntry → Nat → (RequestStatus × Option Nat) × Option RegEntry
  | none, _ => ((RequestStatus.fetching, none), some ⟨RequestStatus.fetching, []⟩)
  | some ent, wid =>
    match ent.status with
    | RequestStatus.fetching =>
        ((RequestStatus.fetching, some wid),
         some ⟨RequestStatus.fetching, ent.waiters ++ [wid]⟩)
    | s => ((s, none), some ent)

/-- Run `k` successive callers (waiter ids `start`, `start+1`, ...) through
`getRequestStatus`; returns each caller's result and the final entry. Any
concurrent arrival order is some sequential interleaving because the registry
operation is atomic. -/
def arriveFrom : Option RegEntry → Nat → Nat → List (RequestStatus × Option Nat) × Option RegEntry
  | e, _, 0 => ([], e)
  | e, start, k + 1 =>
    let s := getRequestStatus e start
    let rest := arriveFrom s.2 (start + 1) k
    (s.1 :: rest.1, rest.2)

/-- A registry publication performed by the handler: cache.HitForPass or
cache.Cacheable, with the TTL it passes. -/
inductive Publication where
  | hitForPass (ttl : Nat)
  | cacheable (ttl : Nat)
deriving DecidableEq, Repr

/-- The status a publication writes into the registry entry. -/
def Publication.toStatus : Publication → RequestStatus
  | Publication.hitForPass _ => RequestStatus.hitForPass
  | Publication.cacheable _ => RequestStatus.cacheable

/-- Modelled from the spec: mark_cacheable / mark_hit_for_pass
(cache.Cacheable / cache.HitForPass of the cache package, not under src/).
Per section 4.2: transition the entry to the named state and drain the waiter
queue by delivering the new state to each waiter. Returns the deliveries
(waiter id, delivered status) and the new entry. -/
def publish (e : Option RegEntry) (p : Publication) : List (Nat × RequestStatus) × Option RegEntry :=
  let ws := match e with
    | none => []
    | some ent => ent.waiters
  (ws.map (fun w => (w, p.toStatus)), some ⟨p.toStatus, []⟩)

/-- Apply a list of publications to a registry entry. -/
def applyPubs (e : Option RegEntry) (ps : List Publication) : Option RegEntry :=
  ps.foldl (fun acc p => (publish acc p).snd) e

/-- Result of doProxy in server/server.go: the upstream status code, the
serialized response header block and the response body (bytes as naturals). -/
structure FetchResp where
  statusCode : Nat
  header : List Nat
  body : List Nat
deriving DecidableEq, Repr

/-- cache.ResponseData as constructed by the handler in server/server.go. -/
structure ResponseData where
  CreatedAt : Nat
  StatusCode : Nat
  Compress : CompressType
  TTL : Nat
  Header : List Nat
  Body : List Nat
deriving DecidableEq, Repr

/-- What the handler sends to the client: a normal response via
dispatch.Response, or an error response via dispatch.ErrorHandler. -/
inductive HandlerResult where
  | response (d : ResponseData)
  | errorResp
deriving DecidableEq, Repr

/-- Instrumented observation of one handler run: the client-visible result,
the registry publications performed (cache.HitForPass / cache.Cacheable), the
number of upstream fetches (doProxy calls), the response-store save attempts
(cache.SaveResponseData calls), whether a request key was computed
(util.GenRequestKey) and whether the registry was consulted
(cache.GetRequestStatus). -/
structure HandlerTrace where
  result : HandlerResult
  pubs : List Publication
  fetchCount : Nat
  saveAttempts : List ResponseData
  keyComputed : Bool
  regLookup : Bool
deriving DecidableEq, Repr

/-- Modelled from the spec: vars.CompressMinLength of the vars package, which
is not under src/. The spec fixes the threshold default at 1024 bytes. -/
def compressMinLength : Nat := 1024

/-- The request handler of server/server.go (lines 88-202), translated with
its environment made explicit: `isPass` is util.Pass, `regStatus` the status
obtained from the registry (for a follower, the status delivered on its
waiter channel), `fetch` the doProxy outcome (`none` = error),
`shouldCompress` the util.ShouldCompress verdict on the response
content-type, `cacheAge` the util.GetCacheAge result, `gz` the util.Gzip
function (`none` = gzip error), `saveOk` the cache.SaveResponseData outcome,
`stored` the cache.GetResponse outcome, `hfpTTL` the hitForPassTTL global and
`createdAt` the util.GetSeconds clock. -/
def handler (isPass : Bool) (regStatus : RequestStatus) (fetch : Option FetchResp)
    (shouldCompress : Bool) (cacheAge : Nat) (gz : List Nat → Option (List Nat))
    (saveOk : Bool) (stored : Option ResponseData) (hfpTTL : Nat)
    (createdAt : Nat) : HandlerTrace :=
  let status := if isPass then RequestStatus.pass else regStatus
  let keyComputed := !isPass
  if status = RequestStatus.pass then
    match fetch with
    | none => ⟨HandlerResult.errorResp, [], 1, [], keyComputed, keyComputed⟩
    | some r =>
      let respData : ResponseData :=
        ⟨createdAt, r.statusCode % 65536, CompressType.raw, 0, r.header, r.body⟩
      ⟨HandlerResult.response respData, [], 1, [], keyComputed, keyComputed⟩
  else if status = RequestStatus.cacheable then
    match stored with
    | none => ⟨HandlerResult.errorResp, [], 0, [], keyComputed, keyComputed⟩
    | some d => ⟨HandlerResult.response d, [], 0, [], keyComputed, keyComputed⟩
  else
    match fetch with
    | none =>
      ⟨HandlerResult.errorResp, [Publication.hitForPass hfpTTL], 1, [], keyComputed, keyComputed⟩
    | some r =>
      let doGzip := shouldCompress && decide (0 < cacheAge)
        && decide (compressMinLength < r.body.length)
      let gzBody := if doGzip then gz r.body else none
      let body := match gzBody with
        | some g => g
        | none => r.body
      let comp := match gzBody with
        | some _ => CompressType.gzip
        | none => CompressType.raw
      let respData : ResponseData :=
        ⟨createdAt, r.statusCode % 65536, comp, cacheAge, r.header, body⟩
      if cacheAge = 0 then
        if status = RequestStatus.hitForPass then
          ⟨HandlerResult.response respData, [], 1, [], keyComputed, keyComputed⟩
        else
          ⟨HandlerResult.response respData, [Publication.hitForPass hfpTTL], 1, [],
           keyComputed, keyComputed⟩
      else if saveOk then
        ⟨HandlerResult.response respData, [Publication.cacheable cacheAge], 1, [respData],
         keyComputed, keyComputed⟩
      else
        ⟨HandlerResult.response respData, [Publication.hitForPass hfpTTL], 1, [respData],
         keyComputed, keyComputed⟩

/-- The effective hitForPassTTL after Start in server/server.go runs: the
global starts at 300 and is overwritten with uint32(conf.HitForPass) only
when conf.HitForPass > 0. -/
def effectiveHitForPassTTL (confHitForPass : Int) : Nat :=
  if 0 < confHitForPass then confHitForPass.toNat % 2 ^ 32 else 300

/-- setServerTiming of server/server.go: builds the metric
`0=<elapsed ms>;<name>` and sets it as the Server-Timing header, prepending
it (comma-joined) to any Server-Timing value already on the response. -/
def setServerTiming (name : String) (startedAtNs nowNs : Int) (existing : String) : String :=
  let use : Int := (nowNs - startedAtNs) / 1000000
  let desc := "0=" ++ toString use ++ ";" ++ name
  if existing = "" then desc
  else desc ++ "," ++ existing

/-- Outcome of the cache-fetcher middleware of middleware/cache_fetcher.go
for a request whose status is set: it skips non-Cacheable requests, reads the
response from the cache for Cacheable ones, and propagates the lookup error
(no retry) when the read fails. -/
inductive FetcherOutcome where
  | skipped
  | fetched (d : ResponseData)
  | failed
deriving DecidableEq, Repr

/-- CacheFetcher of middleware/cache_fetcher.go, with the client.GetResponse
result made explicit. -/
def cacheFetcher (status : RequestStatus) (stored : Option ResponseData) : FetcherOutcome :=
  if status ≠ RequestStatus.cacheable then FetcherOutcome.skipped
  else
    match stored with
    | some d => FetcherOutcome.fetched d
    | none => FetcherOutcome.failed

/-- LRUCache of the repository's lru.go (groupcache-derived). `cache = none`
models the nil internal map (uninitialized or cleared); the list is the
doubly-linked recency list, front first (most recently used). MaxEntries is
the Go int capacity field. -/
structure LRUCache (V : Type) where
  MaxEntries : Int
  cache : Option (List (String × V))
deriving DecidableEq, Repr

/-- NewLRU of lru.go: the map is still nil until the first Add. -/
def NewLRU (V : Type) (maxEntries : Int) : LRUCache V :=
  ⟨maxEntries, none⟩

/-- The recency list seen through the nil check: a nil map holds nothing. -/
def LRUCache.items {V : Type} (c : LRUCache V) : List (String × V) :=
  match c.cache with
  | none => []
  | some l => l

/-- Add of lru.go: lazily initializes the nil map; on an existing key moves
the entry to the front and updates its value; otherwise pushes a new front
entry and, when MaxEntries is nonzero and the length exceeds it, removes the
oldest (back) entry. -/
def LRUCache.Add {V : Type} (c : LRUCache V) (key : String) (value : V) : LRUCache V :=
  let items := c.items
  if items.any (fun p => p.1 == key) then
    ⟨c.MaxEntries, some ((key, value) :: items.filter (fun p => p.1 != key))⟩
  else
    let items2 := (key, value) :: items
    if c.MaxEntries ≠ 0 ∧ (items2.length : Int) > c.MaxEntries then
      ⟨c.MaxEntries, some items2.dropLast⟩
    else
      ⟨c.MaxEntries, some items2⟩

/-- Get of lru.go: nil map misses; a hit moves the entry to the front. -/
def LRUCache.Get {V : Type} (c : LRUCache V) (key : String) : Option V × LRUCache V :=
  match c.cache with
  | none => (none, c)
  | some items =>
    match items.find? (fun p => p.1 == key) with
    | some kv =>
      (some kv.2, ⟨c.MaxEntries, some ((kv.1, kv.2) :: items.filter (fun p => p.1 != key))⟩)
    | none => (none, c)

/-- Remove of lru.go. -/
def LRUCache.Remove {V : Type} (c : LRUCache V) (key : String) : LRUCache V :=
  match c.cache with
  | none => c
  | some items => ⟨c.MaxEntries, some (items.filter (fun p => p.1 != key))⟩

/-- RemoveOldest of lru.go: removes the back entry when one exists. -/
def LRUCache.RemoveOldest {V : Type} (c : LRUCache V) : LRUCache V :=
  match c.cache with
  | none => c
  | some items => ⟨c.MaxEntries, some items.dropLast⟩

/-- Len of lru.go. -/
def LRUCache.Len {V : Type} (c : LRUCache V) : Nat :=
  match c.cache with
  | none => 0
  | some items => items.length

/-- Clear of lru.go: drops the list and the map (map becomes nil again). -/
def LRUCache.Clear {V : Type} (c : LRUCache V) : LRUCache V :=
  ⟨c.MaxEntries, none⟩

/-- An LRU operation from the sequences the claim quantifies over. -/
inductive LOp (V : Type) where
  | add (key : String) (value : V)
  | get (key : String)

/-- Run one operation, keeping the store (Get results are dropped). -/
def stepOp {V : Type} (c : LRUCache V) : LOp V → LRUCache V
  | LOp.add k v => c.Add k v
  | LOp.get k => (c.Get k).snd

/-- Run an operation sequence. -/
def runOps {V : Type} (c : LRUCache V) (ops : List (LOp V)) : LRUCache V :=
  ops.foldl stepOp c

/-- Ghost-instrumented recency list: each entry carries the time (step index)
at which it was last touched (inserted, updated, or hit by Get). The list
transformation mirrors Add and Get of lru.go exactly. -/
def stepT {V : Type} (m : Int) (t : Nat) (ts : List (String × V × Nat)) :
    LOp V → List (String × V × Nat)
  | LOp.add k v =>
    if ts.any (fun p => p.1 == k) then
      (k, v, t) :: ts.filter (fun p => p.1 != k)
    else
      let ts2 := (k, v, t) :: ts
      if m ≠ 0 ∧ (ts2.length : Int) > m then ts2.dropLast else ts2
  | LOp.get k =>
    match ts.find? (fun p => p.1 == k) with
    | some p => (p.1, p.2.1, t) :: ts.filter (fun q => q.1 != k)
    | none => ts

/-- Run an operation sequence on the ghost-instrumented list, times counting
up from `t`. -/
def runT {V : Type} (m : Int) : Nat → List (String × V × Nat) → List (LOp V) →
    List (String × V × Nat)
  | _, ts, [] => ts
  | t, ts, op :: ops => runT m (t + 1) (stepT m t ts op) ops

/-- Forget the ghost timestamps. -/
def stripT {V : Type} (ts : List (String × V × Nat)) : List (String × V) :=
  ts.map (fun p => (p.1, p.2.1))

/-- The response data dispatched to the client, if any. -/
def HandlerResult.dataOf : HandlerResult → Option ResponseData
  | HandlerResult.response d => some d
  | HandlerResult.errorResp => none

/-- Helper: arrivals at an existing Fetching entry all become followers:
caller `start + j` receives (Fetching, waiter id start + j), and the waiter
queue grows in arrival order. -/
theorem arriveFrom_fetching (k : Nat) : ∀ (start : Nat) (ws : List Nat),
    arriveFrom (some ⟨RequestStatus.fetching, ws⟩) start k =
      ((List.range k).map (fun j => (RequestStatus.fetching, some (start + j))),
       some ⟨RequestStatus.fetching, ws ++ (List.range k).map (fun j => start + j)⟩) := by
  induction k with
  | zero => intro start ws; simp [arriveFrom]
  | succ k ih =>
    intro start ws
    have step : getRequestStatus (some ⟨RequestStatus.fetching, ws⟩) start =
        ((RequestStatus.fetching, some start),
         some ⟨RequestStatus.fetching, ws ++ [start]⟩) := rfl
    calc arriveFrom (some ⟨RequestStatus.fetching, ws⟩) start (k + 1)
        = (((RequestStatus.fetching, some start) : RequestStatus × Option Nat) ::
            (arriveFrom (some ⟨RequestStatus.fetching, ws ++ [start]⟩) (start + 1) k).1,
           (arriveFrom (some ⟨RequestStatus.fetching, ws ++ [start]⟩) (start + 1) k).2) := rfl
      _ = ((List.range (k + 1)).map (fun j => (RequestStatus.fetching, some (start + j))),
           some ⟨RequestStatus.fetching, ws ++ (List.range (k + 1)).map (fun j => start + j)⟩) := by
          rw [ih (start + 1) (ws ++ [start])]
          have hmap1 : List.map
              (fun j => ((RequestStatus.fetching, some (start + 1 + j)) :
                RequestStatus × Option Nat)) (List.range k) =
              List.map ((fun j => ((RequestStatus.fetching, some (start + j)) :
                RequestStatus × Option Nat)) ∘ Nat.succ) (List.range k) := by
            apply List.map_congr_left
            intro a ha
            simp only [Function.comp_apply]
            rw [Nat.add_assoc, Nat.add_comm 1 a]
          have hmap2 : List.map (fun j => start + 1 + j) (List.range k) =
              List.map ((fun j => start + j) ∘ Nat.succ) (List.range k) := by
            apply List.map_congr_left
            intro a ha
            simp only [Function.comp_apply]
            rw [Nat.add_assoc, Nat.add_comm 1 a]
          simp only [List.range_succ_eq_map, List.map_cons, List.map_map, List.append_assoc,
            List.singleton_append, Nat.add_zero]
          rw [hmap1, hmap2]

end Pike

namespace Pike

set_option maxHeartbeats 1000000 in
/-- Helper: the handler performs an upstream fetch (doProxy) exactly when the
effective status is not Cacheable, regardless of the other inputs. -/
theorem handler_fetchCount_eq (isP : Bool) (rs : RequestStatus) (fe : Option FetchResp)
    (sc : Bool) (ca : Nat) (gz : List Nat → Option (List Nat)) (so : Bool)
    (st : Option ResponseData) (ttl t : Nat) :
    (handler isP rs fe sc ca gz so st ttl t).fetchCount =
      if (if isP then RequestStatus.pass else rs) = RequestStatus.cacheable then 0 else 1 := by
  cases isP <;> cases rs <;> cases fe <;> cases st <;>
    simp only [handler] <;> (repeat' split) <;> first | rfl | simp_all

set_option maxHeartbeats 1000000 in
/-- Helper: a Cacheable publication happens only on a successful save of a
response with positive TTL, and it carries that TTL. -/
theorem handler_cacheable_pub_requires_save (isP : Bool) (rs : RequestStatus)
    (fe : Option FetchResp) (sc : Bool) (ca : Nat) (gz : List Nat → Option (List Nat))
    (so : Bool) (st : Option ResponseData) (ttl t : Nat) (tv : Nat)
    (hmem : Publication.cacheable tv ∈ (handler isP rs fe sc ca gz so st ttl t).pubs) :
    so = true ∧ 0 < ca ∧ tv = ca := by
  revert hmem
  cases isP <;> cases rs <;> cases fe <;> cases st <;>
    simp only [handler] <;> (repeat' split) <;> intro hmem <;> simp_all <;> omega

/-- C5: the claim says a response-store miss after Cacheable is retried as
Fetching once, with a 500 only on the second miss. The code of
server/server.go (lines 194-201) and of middleware/cache_fetcher.go disproves
this: a Cacheable request whose store read fails gets the error immediately,
with zero upstream fetches and no retry of the fetch path. -/
theorem c5_counterexample :
    (handler false RequestStatus.cacheable (some ⟨200, [], []⟩) true 60
        (fun b => some b) true none 300 0).result = HandlerResult.errorResp ∧
    (handler false RequestStatus.cacheable (some ⟨200, [], []⟩) true 60
        (fun b => some b) true none 300 0).fetchCount = 0 ∧
    cacheFetcher RequestStatus.cacheable none = FetcherOutcome.failed :=
  ⟨rfl, rfl, rfl⟩

/-- C5 (amended): a request that observes Cacheable but whose response-store
read fails is answered with an error response immediately: no upstream fetch
is performed, nothing is published to the registry, nothing is saved, and the
cache-fetcher middleware propagates the lookup error the same way. -/
theorem c5_amended_cache_miss_errors_without_retry (fetch : Option FetchResp)
    (sc : Bool) (ca : Nat) (gz : List Nat → Option (List Nat)) (so : Bool) (ttl t : Nat) :
    (handler false RequestStatus.cacheable fetch sc ca gz so none ttl t).result =
      HandlerResult.errorResp ∧
    (handler false RequestStatus.cacheable fetch sc ca gz so none ttl t).fetchCount = 0 ∧
    (handler false RequestStatus.cacheable fetch sc ca gz so none ttl t).pubs = [] ∧
    (handler false RequestStatus.cacheable fetch sc ca gz so none ttl t).saveAttempts = [] ∧
    cacheFetcher RequestStatus.cacheable none = FetcherOutcome.failed := by
  exact ⟨rfl, rfl, rfl, rfl, rfl⟩

/-- C6: a fetcher (status Fetching) whose upstream fetch fails causes a
HitForPass publication carrying the effective hitForPassTTL, which is 300
when the configured hitForPass value is not positive (server/server.go lines
20, 149-154, 210-212), the registry entry becomes HitForPass, and the client
receives an error response. -/
theorem c6_fetch_failure_hit_for_pass (conf : Int) (hconf : conf ≤ 0) (sc : Bool)
    (ca : Nat) (gz : List Nat → Option (List Nat)) (so : Bool)
    (st : Option ResponseData) (t : Nat) (e : Option RegEntry) :
    effectiveHitForPassTTL conf = 300 ∧
    (handler false RequestStatus.fetching none sc ca gz so st
        (effectiveHitForPassTTL conf) t).pubs = [Publication.hitForPass 300] ∧
    (handler false RequestStatus.fetching none sc ca gz so st
        (effectiveHitForPassTTL conf) t).result = HandlerResult.errorResp ∧
    (publish e (Publication.hitForPass 300)).snd =
      some ⟨RequestStatus.hitForPass, []⟩ := by
  have h300 : effectiveHitForPassTTL conf = 300 := by
    unfold effectiveHitForPassTTL
    rw [if_neg (by omega)]
  refine ⟨h300, ?_, rfl, rfl⟩
  rw [h300]
  rfl

/-- Witness for c6_fetch_failure_hit_for_pass at conf = 0. -/
theorem c6_witness :
    effectiveHitForPassTTL 0 = 300 ∧
    (handler false RequestStatus.fetching none false 0 (fun b => some b) true none
        (effectiveHitForPassTTL 0) 0).pubs = [Publication.hitForPass 300] :=
  ⟨(c6_fetch_failure_hit_for_pass 0 (by decide) false 0 (fun b => some b) true none 0 none).1,
   (c6_fetch_failure_hit_for_pass 0 (by decide) false 0 (fun b => some b) true none 0 none).2.1⟩

/-- C7: on a successful fetch with positive TTL whose save fails, the handler
publishes HitForPass instead of Cacheable and still serves the fetched
response to the requester; a Cacheable publication happens only when the save
succeeded (server/server.go lines 169-193). -/
theorem c7_save_failure_publishes_hit_for_pass (s : RequestStatus)
    (hs : s = RequestStatus.fetching ∨ s = RequestStatus.hitForPass) (r : FetchResp)
    (sc : Bool) (ca : Nat) (hca : 0 < ca) (gz : List Nat → Option (List Nat))
    (st : Option ResponseData) (ttl t : Nat) :
    (handler false s (some r) sc ca gz false st ttl t).result.dataOf.isSome = true ∧
    (handler false s (some r) sc ca gz false st ttl t).pubs =
      [Publication.hitForPass ttl] ∧
    (handler false s (some r) sc ca gz true st ttl t).pubs =
      [Publication.cacheable ca] ∧
    (∀ (isP : Bool) (rs : RequestStatus) (fe : Option FetchResp) (sc2 : Bool)
        (ca2 : Nat) (gz2 : List Nat → Option (List Nat)) (so2 : Bool)
        (st2 : Option ResponseData) (ttl2 t2 tv : Nat),
      Publication.cacheable tv ∈ (handler isP rs fe sc2 ca2 gz2 so2 st2 ttl2 t2).pubs →
        so2 = true ∧ 0 < ca2) := by
  have hne : ¬(ca = 0) := by omega
  have hglobal : ∀ (isP : Bool) (rs : RequestStatus) (fe : Option FetchResp) (sc2 : Bool)
      (ca2 : Nat) (gz2 : List Nat → Option (List Nat)) (so2 : Bool)
      (st2 : Option ResponseData) (ttl2 t2 tv : Nat),
      Publication.cacheable tv ∈ (handler isP rs fe sc2 ca2 gz2 so2 st2 ttl2 t2).pubs →
        so2 = true ∧ 0 < ca2 := by
    intro isP rs fe sc2 ca2 gz2 so2 st2 ttl2 t2 tv hmem
    have h := handler_cacheable_pub_requires_save isP rs fe sc2 ca2 gz2 so2 st2 ttl2 t2 tv hmem
    exact ⟨h.1, h.2.1⟩
  rcases hs with rfl | rfl <;>
    exact ⟨by simp [handler, hne, HandlerResult.dataOf],
           by simp [handler, hne],
           by simp [handler, hne],
           hglobal⟩

/-- Witness for c7_save_failure_publishes_hit_for_pass: a failed save of a
60-second-TTL response publishes HitForPass 300 and is still served. -/
theorem c7_witness :
    (handler false RequestStatus.fetching (some ⟨200, [], [1]⟩) false 60
        (fun b => some b) false none 300 0).pubs = [Publication.hitForPass 300] ∧
    (handler false RequestStatus.fetching (some ⟨200, [], [1]⟩) false 60
        (fun b => some b) true none 300 0).pubs = [Publication.cacheable 60] :=
  ⟨(c7_save_failure_publishes_hit_for_pass RequestStatus.fetching (Or.inl rfl)
      ⟨200, [], [1]⟩ false 60 (by decide) (fun b => some b) none 300 0).2.1,
   (c7_save_failure_publishes_hit_for_pass RequestStatus.fetching (Or.inl rfl)
      ⟨200, [], [1]⟩ false 60 (by decide) (fun b => some b) none 300 0).2.2.1⟩

/-- C8: a pass request computes no request key, never consults or publishes
the registry, attempts no save, forwards to the upstream exactly once, and on
success dispatches a record with TTL 0 and raw compression
(server/server.go lines 115-145). -/
theorem c8_pass_bypasses_cache (regStatus : RequestStatus) (fetch : Option FetchResp)
    (sc : Bool) (ca : Nat) (gz : List Nat → Option (List Nat)) (so : Bool)
    (st : Option ResponseData) (ttl t : Nat) :
    (handler true regStatus fetch sc ca gz so st ttl t).keyComputed = false ∧
    (handler true regStatus fetch sc ca gz so st ttl t).regLookup = false ∧
    (handler true regStatus fetch sc ca gz so st ttl t).pubs = [] ∧
    (handler true regStatus fetch sc ca gz so st ttl t).saveAttempts = [] ∧
    (handler true regStatus fetch sc ca gz so st ttl t).fetchCount = 1 ∧
    ∀ r, fetch = some r →
      (handler true regStatus fetch sc ca gz so st ttl t).result =
        HandlerResult.response ⟨t, r.statusCode % 65536, CompressType.raw, 0, r.header, r.body⟩ := by
  cases fetch with
  | none => exact ⟨rfl, rfl, rfl, rfl, rfl, fun r hr => by cases hr⟩
  | some r0 => exact ⟨rfl, rfl, rfl, rfl, rfl, fun r hr => by cases hr; rfl⟩

/-- Witness for c8_pass_bypasses_cache with a successful upstream fetch. -/
theorem c8_witness :
    (handler true RequestStatus.fetching (some ⟨200, [1], [2]⟩) true 99
        (fun b => some b) true none 300 7).pubs = [] ∧
    (handler true RequestStatus.fetching (some ⟨200, [1], [2]⟩) true 99
        (fun b => some b) true none 300 7).result =
      HandlerResult.response ⟨7, 200 % 65536, CompressType.raw, 0, [1], [2]⟩ :=
  ⟨(c8_pass_bypasses_cache RequestStatus.fetching (some ⟨200, [1], [2]⟩) true 99
      (fun b => some b) true none 300 7).2.2.1,
   (c8_pass_bypasses_cache RequestStatus.fetching (some ⟨200, [1], [2]⟩) true 99
      (fun b => some b) true none 300 7).2.2.2.2.2 ⟨200, [1], [2]⟩ rfl⟩

/-- C9: setServerTiming sets the header to the metric `0=<ms>;<name>` (id 0,
elapsed milliseconds, description) when no Server-Timing header exists, and
otherwise prepends that metric to the inherited value with a comma, so the
handler's own entry always comes first (server/server.go lines 70-86, with
the deferred call at line 93 running on every dispatched response). -/
theorem c9_server_timing_format (name : String) (s n : Int) (existing : String) :
    (existing = "" → setServerTiming name s n existing =
      "0=" ++ toString ((n - s) / 1000000) ++ ";" ++ name) ∧
    (existing ≠ "" → setServerTiming name s n existing =
      "0=" ++ toString ((n - s) / 1000000) ++ ";" ++ name ++ "," ++ existing) := by
  constructor <;> intro h <;> simp [setServerTiming, h]

/-- Witness for c9_server_timing_format: an inherited upstream metric is
appended after the handler's own entry. -/
theorem c9_witness : setServerTiming "Pike" 0 5000000 "cpu=1;x" = "0=5;Pike,cpu=1;x" := by
  rw [(c9_server_timing_format "Pike" 0 5000000 "cpu=1;x").2 (by decide)]
  rfl

/-- C10: on a cleared (or fresh) store the internal map is nil: Get misses,
Remove and RemoveOldest are no-ops, Len is 0, NewLRU starts in the same
state, and a subsequent Add reinitializes the structures so the store works
again (lru.go: the nil checks in Add, Get, Remove, RemoveOldest, Len, and
Clear). -/
theorem c10_nil_map_safety (V : Type) (c : LRUCache V) (k : String) (v : V)
    (hm : 0 ≤ c.MaxEntries) :
    c.Clear.Get k = (none, c.Clear) ∧
    c.Clear.Remove k = c.Clear ∧
    c.Clear.RemoveOldest = c.Clear ∧
    c.Clear.Len = 0 ∧
    NewLRU V c.MaxEntries = c.Clear ∧
    (c.Clear.Add k v).cache = some [(k, v)] ∧
    ((c.Clear.Add k v).Get k).fst = some v := by
  have hcond : ¬(c.MaxEntries ≠ 0 ∧
      ((((k, v) :: ([] : List (String × V))).length : Int) > c.MaxEntries)) := by
    rintro ⟨h1, h2⟩
    simp only [List.length_cons, List.length_nil] at h2
    omega
  have hadd : c.Clear.Add k v = ⟨c.MaxEntries, some [(k, v)]⟩ := by
    simp only [LRUCache.Add, LRUCache.items, LRUCache.Clear]
    rw [if_neg (by simp), if_neg hcond]
  refine ⟨rfl, rfl, rfl, rfl, rfl, by rw [hadd], ?_⟩
  rw [hadd]
  simp [LRUCache.Get]

/-- Witness for c10_nil_map_safety on a two-entry store. -/
theorem c10_witness :
    ((((⟨2, some [("x", 5)]⟩ : LRUCache Nat).Clear.Add "k" 9).Get "k")).fst = some 9 :=
  (c10_nil_map_safety Nat ⟨2, some [("x", 5)]⟩ "k" 9 (by decide)).2.2.2.2.2.2

set_option maxRecDepth 8000 in
/-- C3: the claim says gzip is applied exactly when the content-type is
compressible AND the body length is at least 1024 bytes. The code
(server/server.go line 162) uses a strict comparison,
`len(body) > vars.CompressMinLength`: a compressible 1024-byte body with a
positive TTL is stored raw, although the claim requires gzip for it. -/
theorem c3_counterexample :
    (List.replicate 1024 0).length = compressMinLength ∧
    compressMinLength ≤ (List.replicate 1024 0).length ∧
    (handler false RequestStatus.fetching (some ⟨200, [], List.replicate 1024 0⟩)
        true 60 (fun b => some b) true none 300 0).result.dataOf.map
      ResponseData.Compress = some CompressType.raw := by
  refine ⟨by simp [compressMinLength], by simp [compressMinLength], rfl⟩

/-- C3 (amended): for a fetcher (or hit-for-pass refetcher) with a successful
upstream fetch and a working gzip, the dispatched (and, when saved, stored)
record carries compression gzip exactly when the content-type is compressible
AND the cache TTL is positive AND the body is STRICTLY longer than the
1024-byte threshold; in every other case it is raw. The record's TTL is the
parsed cache age and its body is the gzip output exactly in the gzip case. -/
theorem c3_amended_strict_compression_threshold (r : FetchResp) (sc : Bool)
    (ca : Nat) (gz : List Nat → Option (List Nat))
    (hgz : ∀ b, ∃ g, gz b = some g) (so : Bool) (st : Option ResponseData)
    (ttl t : Nat) :
    ((handler false RequestStatus.fetching (some r) sc ca gz so st ttl t).result.dataOf.map
        ResponseData.Compress = some CompressType.gzip ↔
      (sc = true ∧ 0 < ca ∧ compressMinLength < r.body.length)) ∧
    ((handler false RequestStatus.fetching (some r) sc ca gz so st ttl t).result.dataOf.map
        ResponseData.Compress = some CompressType.raw ↔
      ¬(sc = true ∧ 0 < ca ∧ compressMinLength < r.body.length)) ∧
    (handler false RequestStatus.fetching (some r) sc ca gz so st ttl t).result.dataOf.map
        ResponseData.TTL = some ca := by
  obtain ⟨g, hg⟩ := hgz r.body
  rcases Nat.eq_zero_or_pos ca with rfl | hca
  · cases so <;> by_cases hsc : sc = true <;>
      by_cases hlen : compressMinLength < r.body.length <;>
        simp_all [handler, HandlerResult.dataOf, hg]
  · have hne : ¬(ca = 0) := by omega
    rcases Nat.lt_or_ge compressMinLength r.body.length with hlen | hlen
    · cases so <;> by_cases hsc : sc = true <;>
        simp_all [handler, HandlerResult.dataOf, hg, hne, if_pos hlen]
    · have hlen2 : ¬(compressMinLength < r.body.length) := Nat.not_lt.mpr hlen
      cases so <;> by_cases hsc : sc = true <;>
        simp_all [handler, HandlerResult.dataOf, hg, hne, hlen2, if_neg hlen2]

set_option maxRecDepth 8000 in
/-- Witness for c3_amended_strict_compression_threshold: a compressible
1025-byte body with TTL 60 is recorded as gzip. -/
theorem c3_witness :
    (handler false RequestStatus.fetching (some ⟨200, [], List.replicate 1025 0⟩)
        true 60 (fun _ => some [9]) true none 300 0).result.dataOf.map
      ResponseData.Compress = some CompressType.gzip := by
  rw [(c3_amended_strict_compression_threshold ⟨200, [], List.replicate 1025 0⟩
      true 60 (fun _ => some [9]) (fun _ => ⟨[9], rfl⟩) true none 300 0).1]
  refine ⟨rfl, by omega, by simp [compressMinLength]⟩

/-- C4: the claim says a HitForPass caller publishes nothing and leaves the
registry entry unchanged whether its fetch succeeds or fails. The code
(server/server.go lines 146-193) disproves this: a HitForPass caller whose
fetch succeeds with a cacheable response and whose save succeeds publishes
Cacheable, moving the entry from HitForPass to Cacheable. -/
theorem c4_counterexample :
    (handler false RequestStatus.hitForPass (some ⟨200, [], []⟩) false 60
        (fun b => some b) true none 300 0).pubs = [Publication.cacheable 60] ∧
    applyPubs (some ⟨RequestStatus.hitForPass, []⟩)
        (handler false RequestStatus.hitForPass (some ⟨200, [], []⟩) false 60
          (fun b => some b) true none 300 0).pubs =
      some ⟨RequestStatus.cacheable, []⟩ ∧
    (some ⟨RequestStatus.cacheable, []⟩ : Option RegEntry) ≠
      some ⟨RequestStatus.hitForPass, []⟩ :=
  ⟨rfl, rfl, by decide⟩

/-- C4 (amended): a HitForPass caller performs the upstream fetch itself; it
leaves the registry untouched only when the fetch succeeds with TTL 0; on
fetch failure it republishes HitForPass, and on success with positive TTL it
publishes Cacheable after a successful save, or HitForPass when the save
fails. -/
theorem c4_amended_hit_for_pass_republishes (r : FetchResp) (sc : Bool) (ca : Nat)
    (gz : List Nat → Option (List Nat)) (so : Bool) (st : Option ResponseData)
    (ttl t : Nat) :
    (handler false RequestStatus.hitForPass none sc ca gz so st ttl t).pubs =
      [Publication.hitForPass ttl] ∧
    (handler false RequestStatus.hitForPass none sc ca gz so st ttl t).fetchCount = 1 ∧
    (handler false RequestStatus.hitForPass (some r) sc 0 gz so st ttl t).pubs = [] ∧
    (handler false RequestStatus.hitForPass (some r) sc 0 gz so st ttl t).fetchCount = 1 ∧
    (0 < ca →
      (handler false RequestStatus.hitForPass (some r) sc ca gz so st ttl t).pubs =
        if so then [Publication.cacheable ca] else [Publication.hitForPass ttl]) := by
  refine ⟨rfl, rfl, rfl, rfl, fun hca => ?_⟩
  have hne : ¬(ca = 0) := by omega
  cases so <;> simp [handler, hne]

/-- Witness for c4_amended_hit_for_pass_republishes: with TTL 60 and a
successful save, a HitForPass caller publishes Cacheable. -/
theorem c4_witness :
    (handler false RequestStatus.hitForPass (some ⟨200, [], [1]⟩) false 60
        (fun b => some b) true none 300 0).pubs = [Publication.cacheable 60] := by
  rw [(c4_amended_hit_for_pass_republishes ⟨200, [], [1]⟩ false 60 (fun b => some b)
      true none 300 0).2.2.2.2 (by decide)]
  rfl

/-- C1: the claim says every non-fetcher caller observes the published status
instead of fetching itself. The code disproves this when the published status
is HitForPass (upstream failure or uncacheable response): the follower's
handler run (server/server.go lines 146-149) then performs its own backend
fetch. Here two callers arrive at an empty registry; caller 0 is elected
fetcher, caller 1 waits; the fetcher's upstream fetch fails, so it publishes
HitForPass 300, which is delivered to waiter 1; both the fetcher's run and
the follower's run perform one upstream fetch each, so two callers of the
set fetch, not exactly one. -/
theorem c1_counterexample :
    (arriveFrom none 0 2).1 =
      [(RequestStatus.fetching, none), (RequestStatus.fetching, some 1)] ∧
    (handler false RequestStatus.fetching none false 0 (fun b => some b) true none
        300 0).pubs = [Publication.hitForPass 300] ∧
    (publish (arriveFrom none 0 2).2 (Publication.hitForPass 300)).1 =
      [(1, RequestStatus.hitForPass)] ∧
    (handler false RequestStatus.fetching none false 0 (fun b => some b) true none
        300 0).fetchCount = 1 ∧
    (handler false RequestStatus.hitForPass (some ⟨502, [], []⟩) false 0
        (fun b => some b) true none 300 0).fetchCount = 1 :=
  ⟨rfl, rfl, rfl, rfl, rfl⟩

/-- C1 (amended): among any callers arriving at an empty registry entry,
exactly the first is elected fetcher — it gets (Fetching, no waiter) and its
handler run performs the single coalesced fetch — and every later caller gets
(Fetching, waiter); a publication delivers exactly the published status to
every waiter; a follower delivered Cacheable serves the stored response with
zero fetches, while a follower delivered HitForPass performs its own
non-caching fetch. -/
theorem c1_amended_single_flight (n : Nat) (hn : 1 ≤ n) (p : Publication)
    (d : ResponseData) (f2 : Option FetchResp) (r : FetchResp) (sc : Bool) (ca : Nat)
    (gz : List Nat → Option (List Nat)) (so : Bool) (st : Option ResponseData)
    (ttl t : Nat) :
    (arriveFrom none 0 n).1 =
      (RequestStatus.fetching, none) ::
        (List.range (n - 1)).map (fun j => (RequestStatus.fetching, some (1 + j))) ∧
    (arriveFrom none 0 n).1.countP (fun x => x.2.isNone) = 1 ∧
    (publish (arriveFrom none 0 n).2 p).1 =
      ((List.range (n - 1)).map (fun j => 1 + j)).map (fun w => (w, p.toStatus)) ∧
    (handler false RequestStatus.fetching f2 sc ca gz so st ttl t).fetchCount = 1 ∧
    (handler false RequestStatus.cacheable f2 sc ca gz so (some d) ttl t).fetchCount = 0 ∧
    (handler false RequestStatus.cacheable f2 sc ca gz so (some d) ttl t).result =
      HandlerResult.response d ∧
    (handler false RequestStatus.hitForPass (some r) sc ca gz so st ttl t).fetchCount = 1 := by
  obtain ⟨m, rfl⟩ : ∃ m, n = m + 1 := ⟨n - 1, by omega⟩
  have h0 : arriveFrom none 0 (m + 1) =
      ((RequestStatus.fetching, none) ::
        (List.range m).map (fun j => (RequestStatus.fetching, some (1 + j))),
       some ⟨RequestStatus.fetching, (List.range m).map (fun j => 1 + j)⟩) := by
    have hstep : arriveFrom none 0 (m + 1) =
        ((RequestStatus.fetching, none) ::
          (arriveFrom (some ⟨RequestStatus.fetching, []⟩) 1 m).1,
         (arriveFrom (some ⟨RequestStatus.fetching, []⟩) 1 m).2) := rfl
    rw [hstep, arriveFrom_fetching m 1 []]
    simp
  have hm1 : m + 1 - 1 = m := by omega
  refine ⟨?_, ?_, ?_, ?_, rfl, rfl, ?_⟩
  · rw [h0, hm1]
  · rw [h0]
    simp only [List.countP_cons]
    have hz : ((List.range m).map
        (fun j => ((RequestStatus.fetching, some (1 + j)) :
          RequestStatus × Option Nat))).countP (fun x => x.2.isNone) = 0 := by
      rw [List.countP_eq_zero]
      intro a ha
      obtain ⟨j, hj, rfl⟩ := List.mem_map.mp ha
      simp
    rw [hz]
    simp
  · rw [h0, hm1]
    rfl
  · cases f2 with
    | none => rfl
    | some r2 =>
      have h := handler_fetchCount_eq false RequestStatus.fetching (some r2) sc ca gz so st ttl t
      simpa using h
  · simpa using handler_fetchCount_eq false RequestStatus.hitForPass (some r) sc ca gz so st ttl t

/-- Witness for c1_amended_single_flight with three callers and a Cacheable
publication. -/
theorem c1_witness :
    (arriveFrom none 0 3).1 =
      [(RequestStatus.fetching, none), (RequestStatus.fetching, some 1),
       (RequestStatus.fetching, some 2)] ∧
    (publish (arriveFrom none 0 3).2 (Publication.cacheable 60)).1 =
      [(1, RequestStatus.cacheable), (2, RequestStatus.cacheable)] ∧
    (handler false RequestStatus.cacheable none false 0 (fun b => some b) true
        (some ⟨9, 200, CompressType.raw, 60, [], [1]⟩) 300 0).fetchCount = 0 := by
  have h := c1_amended_single_flight 3 (by omega) (Publication.cacheable 60)
    ⟨9, 200, CompressType.raw, 60, [], [1]⟩ none ⟨200, [], []⟩ false 0
    (fun b => some b) true none 300 0
  refine ⟨?_, ?_, h.2.2.2.2.1⟩
  · rw [h.1]
    rfl
  · rw [h.2.2.1]
    rfl

/-- Helper: stripping timestamps commutes with the key-membership test. -/
theorem stripT_any {V : Type} (ts : List (String × V × Nat)) (k : String) :
    (stripT ts).any (fun p => p.1 == k) = ts.any (fun p => p.1 == k) := by
  induction ts with
  | nil => rfl
  | cons a l ih => simp_all [stripT]

/-- Helper: stripping timestamps commutes with removing a key. -/
theorem stripT_filter {V : Type} (ts : List (String × V × Nat)) (k : String) :
    stripT (ts.filter (fun p => p.1 != k)) = (stripT ts).filter (fun p => p.1 != k) := by
  simp only [stripT]
  rw [List.filter_map]
  rfl

/-- Helper: stripping timestamps commutes with key lookup. -/
theorem stripT_find {V : Type} (ts : List (String × V × Nat)) (k : String) :
    (stripT ts).find? (fun p => p.1 == k) =
      Option.map (fun p : String × V × Nat => (p.1, p.2.1)) (ts.find? (fun p => p.1 == k)) := by
  simp only [stripT]
  rw [List.find?_map]
  rfl

/-- Helper: stripping preserves length. -/
theorem stripT_length {V : Type} (ts : List (String × V × Nat)) :
    (stripT ts).length = ts.length := by
  simp [stripT]

/-- Helper: stripping commutes with dropping the last element. -/
theorem stripT_dropLast {V : Type} (ts : List (String × V × Nat)) :
    stripT ts.dropLast = (stripT ts).dropLast := by
  simp [stripT, List.map_dropLast]

/-- Helper: every LRU operation preserves the capacity field. -/
theorem stepOp_maxEntries {V : Type} (c : LRUCache V) (op : LOp V) :
    (stepOp c op).MaxEntries = c.MaxEntries := by
  cases op with
  | add k v =>
    simp only [stepOp, LRUCache.Add]
    (repeat' split) <;> rfl
  | get k =>
    simp only [stepOp, LRUCache.Get]
    (repeat' split) <;> rfl

/-- Helper: one LRU step is simulated by one ghost-instrumented step. -/
theorem stepT_sim {V : Type} (m : Int) (t : Nat) (c : LRUCache V)
    (ts : List (String × V × Nat)) (op : LOp V) (hm : c.MaxEntries = m)
    (h : c.items = stripT ts) :
    (stepOp c op).items = stripT (stepT m t ts op) := by
  cases op with
  | add k v =>
    simp only [stepOp, LRUCache.Add, stepT, hm, h, stripT_any]
    by_cases hany : ts.any (fun p => p.1 == k) = true
    · rw [if_pos hany, if_pos hany]
      have hx : stripT ((k, v, t) :: ts.filter (fun p => p.1 != k)) =
          (k, v) :: (stripT ts).filter (fun p => p.1 != k) := by
        simp only [stripT, List.map_cons]
        rw [List.filter_map]
        rfl
      simp only [LRUCache.items, hx]
    · rw [if_neg hany, if_neg hany]
      simp only [List.length_cons, stripT_length]
      by_cases hc : m ≠ 0 ∧ ((ts.length + 1 : Nat) : Int) > m
      · rw [if_pos hc, if_pos hc]
        simp only [LRUCache.items]
        rw [stripT_dropLast]
        rfl
      · rw [if_neg hc, if_neg hc]
        simp [LRUCache.items, stripT]
  | get k =>
    simp only [stepOp, LRUCache.Get, stepT]
    cases hcache : c.cache with
    | none =>
      have hnil : ts = [] := by
        have hstrip : stripT ts = [] := by
          rw [← h]
          simp [LRUCache.items, hcache]
        simpa [stripT] using hstrip
      subst hnil
      simp [LRUCache.items, hcache, stripT]
    | some items =>
      have hitems : items = stripT ts := by
        rw [← h]
        simp [LRUCache.items, hcache]
      subst hitems
      dsimp only
      rw [stripT_find]
      cases hf : ts.find? (fun p => p.1 == k) with
      | none =>
        simp [LRUCache.items, hcache, h]
      | some p =>
        rw [Option.map_some']
        have hx : stripT ((p.1, p.2.1, t) :: ts.filter (fun q => q.1 != k)) =
            (p.1, p.2.1) :: (stripT ts).filter (fun q => q.1 != k) := by
          simp only [stripT, List.map_cons]
          rw [List.filter_map]
          rfl
        simp only [LRUCache.items, hx]

/-- Helper: running a whole operation sequence preserves the capacity and is
simulated by the ghost-instrumented run. -/
theorem runT_sim {V : Type} (m : Int) (ops : List (LOp V)) : ∀ (t : Nat)
    (c : LRUCache V) (ts : List (String × V × Nat)), c.MaxEntries = m →
    c.items = stripT ts →
    (runOps c ops).MaxEntries = m ∧ (runOps c ops).items = stripT (runT m t ts ops) := by
  induction ops with
  | nil => intro t c ts h1 h2; exact ⟨h1, h2⟩
  | cons op ops ih =>
    intro t c ts h1 h2
    have hmax : (stepOp c op).MaxEntries = m := by rw [stepOp_maxEntries, h1]
    exact ih (t + 1) (stepOp c op) (stepT m t ts op) hmax (stepT_sim m t c ts op h1 h2)

/-- Helper: one ghost step keeps the last-touch times strictly decreasing and
bounded by the clock. -/
theorem stepT_pairwise {V : Type} (m : Int) (t : Nat) (ts : List (String × V × Nat))
    (op : LOp V) (h1 : ts.Pairwise (fun a b => b.2.2 < a.2.2))
    (h2 : ∀ x ∈ ts, x.2.2 < t) :
    (stepT m t ts op).Pairwise (fun a b => b.2.2 < a.2.2) ∧
      ∀ x ∈ stepT m t ts op, x.2.2 < t + 1 := by
  cases op with
  | add k v =>
    simp only [stepT]
    by_cases hany : ts.any (fun p => p.1 == k) = true
    · rw [if_pos hany]
      refine ⟨List.pairwise_cons.mpr ⟨?_, h1.sublist (List.filter_sublist ts)⟩, ?_⟩
      · intro b hb
        exact h2 b ((List.filter_sublist ts).subset hb)
      · intro x hx
        rcases List.mem_cons.mp hx with rfl | hx
        · exact Nat.lt_succ_self t
        · exact Nat.lt_succ_of_lt (h2 x ((List.filter_sublist ts).subset hx))
    · rw [if_neg hany]
      have hcons : ((k, v, t) :: ts).Pairwise (fun a b => b.2.2 < a.2.2) :=
        List.pairwise_cons.mpr ⟨fun b hb => h2 b hb, h1⟩
      have hbound : ∀ x ∈ (k, v, t) :: ts, x.2.2 < t + 1 := by
        intro x hx
        rcases List.mem_cons.mp hx with rfl | hx
        · exact Nat.lt_succ_self t
        · exact Nat.lt_succ_of_lt (h2 x hx)
      split
      · exact ⟨hcons.sublist (List.dropLast_sublist _),
          fun x hx => hbound x ((List.dropLast_sublist _).subset hx)⟩
      · exact ⟨hcons, hbound⟩
  | get k =>
    simp only [stepT]
    cases hf : ts.find? (fun p => p.1 == k) with
    | none => exact ⟨h1, fun x hx => Nat.lt_succ_of_lt (h2 x hx)⟩
    | some p =>
      refine ⟨List.pairwise_cons.mpr ⟨?_, h1.sublist (List.filter_sublist ts)⟩, ?_⟩
      · intro b hb
        exact h2 b ((List.filter_sublist ts).subset hb)
      · intro x hx
        rcases List.mem_cons.mp hx with rfl | hx
        · exact Nat.lt_succ_self t
        · exact Nat.lt_succ_of_lt (h2 x ((List.filter_sublist ts).subset hx))

/-- Helper: the whole ghost run keeps last-touch times strictly decreasing. -/
theorem runT_pairwise {V : Type} (m : Int) (ops : List (LOp V)) : ∀ (t : Nat)
    (ts : List (String × V × Nat)), ts.Pairwise (fun a b => b.2.2 < a.2.2) →
    (∀ x ∈ ts, x.2.2 < t) →
    (runT m t ts ops).Pairwise (fun a b => b.2.2 < a.2.2) ∧
      ∀ x ∈ runT m t ts ops, x.2.2 < t + ops.length := by
  induction ops with
  | nil => intro t ts h1 h2; exact ⟨h1, fun x hx => by simpa using h2 x hx⟩
  | cons op ops ih =>
    intro t ts h1 h2
    have hs := stepT_pairwise m t ts op h1 h2
    have := ih (t + 1) (stepT m t ts op) hs.1 hs.2
    refine ⟨this.1, fun x hx => ?_⟩
    have hb := this.2 x hx
    simpa [Nat.add_assoc, Nat.add_comm 1 ops.length] using hb

/-- Helper: Add always leaves the added pair at the front (most recently
used), for a nonnegative capacity. -/
theorem lru_add_head {V : Type} (c : LRUCache V) (k : String) (v : V)
    (hm : 0 ≤ c.MaxEntries) : ((c.Add k v).items).head? = some (k, v) := by
  simp only [LRUCache.Add]
  split
  · rfl
  · split
    · next hany hc =>
      obtain ⟨h1, h2⟩ := hc
      have hlen : 1 ≤ c.items.length := by
        simp only [List.length_cons] at h2
        omega
      cases hitems : c.items with
      | nil => rw [hitems] at hlen; simp at hlen
      | cons a l =>
        rfl
    · rfl

/-- Helper: a Get hit moves the hit key, with its stored value, to the
front. -/
theorem lru_get_hit_head {V : Type} (c : LRUCache V) (k : String) (v : V)
    (h : (c.Get k).fst = some v) : ((c.Get k).snd).items.head? = some (k, v) := by
  obtain ⟨me, cache⟩ := c
  cases cache with
  | none => simp [LRUCache.Get] at h
  | some items =>
    simp only [LRUCache.Get] at h ⊢
    cases hf : items.find? (fun p => p.1 == k) with
    | none =>
      rw [hf] at h
      simp at h
    | some kv =>
      rw [hf] at h
      have hk : kv.1 = k := by
        have hs := List.find?_some hf
        simpa using hs
      have hv : kv.2 = v := by simpa using h
      show some (kv.1, kv.2) = some (k, v)
      rw [hk, hv]

/-- Helper: when a fresh key is added to a full store, exactly the back
(least recently used) entry is dropped. -/
theorem lru_add_evicts_last {V : Type} (c : LRUCache V) (k : String) (v : V)
    (hfresh : c.items.any (fun p => p.1 == k) = false)
    (hne : c.MaxEntries ≠ 0)
    (hlen : ((c.items.length + 1 : Nat) : Int) > c.MaxEntries) :
    (c.Add k v).items = ((k, v) :: c.items).dropLast := by
  simp only [LRUCache.Add]
  rw [if_neg (by simp [hfresh]), if_pos ⟨hne, by simpa using hlen⟩]
  rfl

/-- Helper: with capacity 0 (unbounded) every key survives an Add. -/
theorem lru_add_cap0_keeps {V : Type} (c : LRUCache V) (k : String) (v : V)
    (h0 : c.MaxEntries = 0) (p : String × V) (hp : p ∈ c.items) :
    ∃ w, (p.1, w) ∈ (c.Add k v).items := by
  simp only [LRUCache.Add]
  by_cases hany : c.items.any (fun q => q.1 == k) = true
  · rw [if_pos hany]
    by_cases hpk : p.1 = k
    · refine ⟨v, ?_⟩
      rw [hpk]
      simp [LRUCache.items]
    · refine ⟨p.2, ?_⟩
      have hmem : p ∈ c.items.filter (fun q => q.1 != k) := by
        rw [List.mem_filter]
        exact ⟨hp, by simp [hpk]⟩
      have hmem2 : (p.1, p.2) ∈ (k, v) :: c.items.filter (fun q => q.1 != k) := by
        rw [Prod.mk.eta]
        exact List.mem_cons_of_mem _ hmem
      simpa [LRUCache.items] using hmem2
  · rw [if_neg hany, if_neg (by simp [h0])]
    refine ⟨p.2, ?_⟩
    have hmem2 : (p.1, p.2) ∈ (k, v) :: c.items := by
      rw [Prod.mk.eta]
      exact List.mem_cons_of_mem _ hp
    simpa [LRUCache.items] using hmem2

/-- C2: over any add/get sequence on a store of any nonnegative capacity
(capacity field MaxEntries of lru.go, an int): the run is simulated by a
ghost-timestamped recency list whose last-touch times are strictly
decreasing from front to back; Add leaves the added pair at the front; a Get
hit moves the hit entry to the front; when a fresh key is added to a full
store the dropped entry is exactly the back one, which has the strictly
smallest last-touch time (the least recently touched entry); and with
capacity 0 an Add never evicts any key. -/
theorem c2_lru_recency (V : Type) (m : Int) (hm : 0 ≤ m) (ops : List (LOp V)) :
    (runOps (NewLRU V m) ops).MaxEntries = m ∧
    (runOps (NewLRU V m) ops).items = stripT (runT m 1 [] ops) ∧
    (runT m 1 ([] : List (String × V × Nat)) ops).Pairwise (fun a b => b.2.2 < a.2.2) ∧
    (∀ k v, ((runOps (NewLRU V m) ops).Add k v).items.head? = some (k, v)) ∧
    (∀ k v, ((runOps (NewLRU V m) ops).Get k).fst = some v →
      ((runOps (NewLRU V m) ops).Get k).snd.items.head? = some (k, v)) ∧
    (∀ k v, (runOps (NewLRU V m) ops).items.any (fun p => p.1 == k) = false →
      m ≠ 0 → (((runOps (NewLRU V m) ops).items.length + 1 : Nat) : Int) > m →
      ((runOps (NewLRU V m) ops).Add k v).items =
        ((k, v) :: (runOps (NewLRU V m) ops).items).dropLast ∧
      ∃ hne : runT m 1 ([] : List (String × V × Nat)) ops ≠ [],
        ∀ x ∈ (runT m 1 ([] : List (String × V × Nat)) ops).dropLast,
          ((runT m 1 ([] : List (String × V × Nat)) ops).getLast hne).2.2 < x.2.2) ∧
    (m = 0 → ∀ k v, ∀ p ∈ (runOps (NewLRU V m) ops).items,
      ∃ w, (p.1, w) ∈ ((runOps (NewLRU V m) ops).Add k v).items) := by
  obtain ⟨hmax, hsim⟩ := runT_sim m ops 1 (NewLRU V m) [] rfl rfl
  obtain ⟨hpw, hbound⟩ := runT_pairwise m ops 1 [] List.Pairwise.nil (by simp)
  refine ⟨hmax, hsim, hpw, ?_, ?_, ?_, ?_⟩
  · intro k v
    exact lru_add_head (runOps (NewLRU V m) ops) k v (by rw [hmax]; exact hm)
  · intro k v hv
    exact lru_get_hit_head (runOps (NewLRU V m) ops) k v hv
  · intro k v hfresh hne hlen
    constructor
    · exact lru_add_evicts_last (runOps (NewLRU V m) ops) k v hfresh
        (by rw [hmax]; exact hne) (by rw [hmax]; exact hlen)
    · have hlen1 : 1 ≤ (runOps (NewLRU V m) ops).items.length := by omega
      have htslen : (runT m 1 ([] : List (String × V × Nat)) ops).length =
          (runOps (NewLRU V m) ops).items.length := by
        rw [hsim, stripT_length]
      have htsne : runT m 1 ([] : List (String × V × Nat)) ops ≠ [] := by
        intro hbad
        rw [hbad] at htslen
        simp at htslen
        omega
      refine ⟨htsne, ?_⟩
      intro x hx
      have hsplit := List.dropLast_append_getLast htsne
      have hpw2 := hpw
      rw [← hsplit] at hpw2
      rw [List.pairwise_append] at hpw2
      exact hpw2.2.2 x hx _ (by simp)
  · intro h0 k v p hp
    exact lru_add_cap0_keeps (runOps (NewLRU V m) ops) k v (by rw [hmax]; exact h0) p hp

/-- Witness for c2_lru_recency: capacity 2, sequence add(a), add(b), get(a),
then add(c); the eviction clause identifies the removed entry, so the store
holds c (most recent) and a, and b — the least recently touched — is gone,
matching the specification's own eviction scenario. -/
theorem c2_witness :
    0 ≤ (2 : Int) ∧
    ((runOps (NewLRU Nat 2) [LOp.add "a" 1, LOp.add "b" 2, LOp.get "a"]).Add "c" 3).items =
      [("c", 3), ("a", 1)] := by
  refine ⟨by decide, ?_⟩
  have h := (c2_lru_recency Nat 2 (by decide)
    [LOp.add "a" 1, LOp.add "b" 2, LOp.get "a"]).2.2.2.2.2.1
  have h2 := h "c" 3 (by decide) (by decide) (by decide)
  rw [h2.1]
  decide

end Pike
